import Mathlib

/-!
A shallow embedding of the `page-walker` crate: the page-level geometry
(src/level.rs), the recursive walkers `do_walk` / `do_walk_mut`
(src/format.rs), the walker strategies (src/walkers/*.rs and the older
src/remove.rs, src/protect.rs, src/mapper.rs variants), the `AddressSpace`
operations (src/address_space.rs) and the AArch64 presets
(src/arch/aarch64.rs), together with theorems settling the specification
claims about them.

Machine integers (`usize`, `u64`) are modelled as `Nat`; the only place the
fixed width matters is bitwise complement `!x`, modelled as `x ^^^ (2^64 - 1)`.
Rust tuple fields `.0` / `.1` appear as Lean `.1` / `.2`.
-/

deriving instance DecidableEq for Except

namespace PW

/-- Memory is a total map from (page-table physical address, entry index) to the
PTE value stored in that slot. `mapper.map_table(phys)` in the source yields a
view of the table backing `phys`; here that view is the function `mem phys`.
The mapper's `map_table` is modelled as infallible. -/
abbrev Mem := Nat → Nat → Nat

/-- Point update of one PTE slot, used by `do_walk_mut` when a callback rewrites
the PTE it received by mutable reference. -/
def updateMem (m : Mem) (phys i v : Nat) : Mem :=
  fun p j => if p = phys ∧ j = i then v else m p j

/-- One level of the page-table hierarchy (src/level.rs), including the
`page_table_mask` field that the arch presets and the allocating walkers use.
Each bit pair is (mask, value) as in the source. -/
structure PageLevel where
  shift_bits : Nat
  va_bits : Nat
  present_bit : Nat × Nat
  huge_page_bit : Nat × Nat
  page_table_mask : Nat
  deriving DecidableEq

instance : Inhabited PageLevel := ⟨⟨0, 0, (0, 0), (0, 0), 0⟩⟩

/-- Number of entries of a page table at this level (src/level.rs `entries`). -/
def PageLevel.entries (l : PageLevel) : Nat := 1 <<< l.va_bits

/-- Page size at this level (src/level.rs `page_size`). -/
def PageLevel.page_size (l : PageLevel) : Nat := 1 <<< l.shift_bits

/-- Shifted index mask of this level (src/level.rs `mask`). -/
def PageLevel.mask (l : PageLevel) : Nat := ((1 <<< l.va_bits) - 1) <<< l.shift_bits

/-- Last virtual address within the page containing `addr` (src/level.rs `end`;
renamed because `end` is reserved in Lean). -/
def PageLevel.endAddr (l : PageLevel) (addr : Nat) : Nat := addr ||| (l.page_size - 1)

/-- Index of `addr` into the page table at this level (src/level.rs `pte_index`). -/
def PageLevel.pte_index (l : PageLevel) (addr : Nat) : Nat :=
  (addr >>> l.shift_bits) &&& ((1 <<< l.va_bits) - 1)

/-- Present check (src/level.rs `is_present`). -/
def PageLevel.is_present (l : PageLevel) (pte : Nat) : Bool :=
  pte &&& l.present_bit.1 == l.present_bit.2

/-- Huge-page check (src/level.rs `is_huge_page`): levels with a zero huge mask
never report a huge page; otherwise the PTE must match the combined
present-and-huge pattern. -/
def PageLevel.is_huge_page (l : PageLevel) (pte : Nat) : Bool :=
  if l.huge_page_bit.1 != 0 then
    pte &&& (l.present_bit.1 ||| l.huge_page_bit.1) ==
      (l.present_bit.2 ||| l.huge_page_bit.2)
  else false

/-- The page format (src/format.rs): levels listed leaf first, plus the mask of
physical-address bits in a PTE. -/
structure PageFormat where
  levels : List PageLevel
  physical_mask : Nat
  deriving DecidableEq

/-- Largest `usize` value; `!x` on a 64-bit `usize` is `USIZE_MAX ^^^ x`. -/
def USIZE_MAX : Nat := 2 ^ 64 - 1

/-- Bitwise complement at 64-bit width (Rust `!x` on `usize`/`u64`). -/
def not64 (x : Nat) : Nat := USIZE_MAX ^^^ x

/-- Count of trailing one bits, peeling at most `fuel` low bits. -/
def trailingOnesAux : Nat → Nat → Nat
  | 0, _ => 0
  | fuel + 1, n => if n % 2 == 1 then trailingOnesAux fuel (n / 2) + 1 else 0

/-- Count of trailing one bits (`usize::trailing_ones`); `usize` is 64 bits
wide, so 64 iterations cover every value the source can produce. -/
def trailingOnes (n : Nat) : Nat := trailingOnesAux 64 n

/-- Union of each level's address bits; the maximum over the levels
(src/format.rs `virtual_mask`; the source unwraps, panicking on an empty level
list, a case no claim exercises — the model returns 0 there). -/
def PageFormat.virtual_mask (f : PageFormat) : Nat :=
  (f.levels.map fun l => l.mask ||| (l.page_size - 1)).foldr max 0

/-- Sign extension of a virtual address (src/format.rs `sign_extend`). -/
def PageFormat.sign_extend (f : PageFormat) (address : Nat) : Nat :=
  let sign_bit := 1 <<< (trailingOnes f.virtual_mask - 1)
  if address &&& sign_bit == sign_bit then
    not64 f.virtual_mask ||| address
  else address

/-- Level lookup `&self.levels[index]`; the walker clamps the index to the level
count, so the lookup is in range on every call the source makes. -/
def PageFormat.getLevel (f : PageFormat) (i : Nat) : PageLevel :=
  f.levels.getD i default

/-- The `scan` iterator of `do_walk` / `do_walk_mut` (src/format.rs lines 81-88
and 179-186), unrolled: `n` remaining steps, current PTE index `i`, cursor
`state`. Each step yields `(i, state, level.end(state).min(range.end))` and
advances the cursor to `sign_extend(level.end(state) + 1)`. -/
def pageRangesAux (f : PageFormat) (l : PageLevel) (rend : Nat) :
    Nat → Nat → Nat → List (Nat × Nat × Nat)
  | 0, _, _ => []
  | n + 1, i, state =>
    (i, state, min (l.endAddr state) rend) ::
      pageRangesAux f l rend n (i + 1) (f.sign_extend (l.endAddr state + 1))

/-- The list of (PTE index, sub-range start, sub-range end) triples a walk
produces at one level for the half-open range `rstart .. rend`: the iterator
`pte_index(range.start) .. pte_index(range.end + page_size - 1)` scanned with
the sign-extended cursor (src/format.rs lines 81-88). -/
def pageRanges (f : PageFormat) (l : PageLevel) (rstart rend : Nat) :
    List (Nat × Nat × Nat) :=
  let lo := l.pte_index rstart
  let hi := l.pte_index (rend + l.page_size - 1)
  pageRangesAux f l rend (hi - lo) lo (f.sign_extend rstart)

/-- PTE classification (src/walker.rs `PteType`). -/
inductive PteType where
  | page (level : Nat)
  | pageTable (level : Nat)
  deriving DecidableEq

/-- src/walker.rs `PteType::is_page`. -/
def PteType.is_page : PteType → Bool
  | .page _ => true
  | .pageTable _ => false

/-- A callback issued during a walk, in issue order: `handle_pte` (with the
classification and the PTE value passed to the callback), `handle_pte_hole`,
or `handle_post_pte`. -/
inductive Event where
  | pte (t : PteType) (sub : Nat × Nat) (v : Nat)
  | hole (index : Nat) (sub : Nat × Nat) (v : Nat)
  | post (index : Nat) (sub : Nat × Nat) (v : Nat)
  deriving DecidableEq

/-- The hierarchy level an event was issued at. -/
def eventLevel : Event → Nat
  | .pte (.page l) _ _ => l
  | .pte (.pageTable l) _ _ => l
  | .hole i _ _ => i
  | .post i _ _ => i

/-- A read-only walker strategy (src/walker.rs `PageWalker`): callbacks receive
the memory, the strategy state, and the immutable PTE value, and may fail. -/
structure WalkerR (σ ε : Type) where
  handlePte : Mem → σ → PteType → Nat × Nat → Nat → Except ε σ
  handlePteHole : Mem → σ → Nat → Nat × Nat → Nat → Except ε σ
  handlePostPte : Mem → σ → Nat → Nat × Nat → Nat → Except ε σ

/-- State carried through a read-only walk: the strategy state and the trace of
callbacks issued so far. -/
structure RState (σ : Type) where
  strat : σ
  events : List Event
  deriving DecidableEq

/-- The body of the `for (pte_index, page_range)` loop of `do_walk`
(src/format.rs lines 94-130) for one triple `p`, with the recursive descent
abstracted as `recurse`: classify, `handle_pte`, `handle_pte_hole` when not
present, stop on a Page classification, otherwise recurse into
`pte & physical_mask` and finish with `handle_post_pte`. -/
def walkSlotR (f : PageFormat) (S : WalkerR σ ε) (mem : Mem)
    (recurse : Nat → Nat × Nat → RState σ → Except ε (RState σ))
    (idx phys : Nat) (p : Nat × Nat × Nat) (st : RState σ) :
    Except ε (RState σ) :=
  let lvl := f.getLevel idx
  let sub : Nat × Nat := (p.2.1, p.2.2)
  let pte := mem phys p.1
  let ptype := if idx == 0 || lvl.is_huge_page pte then PteType.page idx
    else PteType.pageTable idx
  (S.handlePte mem st.strat ptype sub pte).bind fun s1 =>
    (if lvl.is_present pte then Except.ok s1
     else S.handlePteHole mem s1 idx sub pte).bind fun s2 =>
      let evs2 := st.events ++ [Event.pte ptype sub pte] ++
        (if lvl.is_present pte then [] else [Event.hole idx sub pte])
      let st2 : RState σ := ⟨s2, evs2⟩
      if idx == 0 || lvl.is_huge_page pte then Except.ok st2
      else
        (recurse (pte &&& f.physical_mask) sub st2).bind fun st3 =>
          (S.handlePostPte mem st3.strat idx sub pte).map
            fun s4 => ⟨s4, st3.events ++ [Event.post idx sub pte]⟩

/-- `do_walk` (src/format.rs lines 58-133). The source recurses on the level
index; `fuel` is a bound on that recursion depth (the top-level `walk` passes
`levels.length`, which the clamped index never reaches from below), so the
out-of-fuel branch is never taken on the calls the source makes. -/
def doWalkR (f : PageFormat) (S : WalkerR σ ε) (mem : Mem) :
    Nat → Nat → Nat → Nat × Nat → RState σ → Except ε (RState σ)
  | 0, _, _, _, st => Except.ok st
  | fuel + 1, phys, index, r, st =>
    let idx := if f.levels.length ≤ index then f.levels.length - 1 else index
    (pageRanges f (f.getLevel idx) r.1 r.2).foldlM
      (fun st p => walkSlotR f S mem
        (fun ph sub st => doWalkR f S mem fuel ph (idx - 1) sub st) idx phys p st)
      st

/-- `PageFormat::walk` (src/format.rs lines 139-150): start the recursion at the
root level `levels.len() - 1`. -/
def walkR (f : PageFormat) (S : WalkerR σ ε) (mem : Mem) (root : Nat)
    (r : Nat × Nat) (st : RState σ) : Except ε (RState σ) :=
  doWalkR f S mem f.levels.length root (f.levels.length - 1) r st

/-- A mutating walker strategy (src/walker.rs `PageWalkerMut`): callbacks
receive the PTE value and return the value they leave in the slot. -/
structure WalkerM (σ ε : Type) where
  handlePte : Mem → σ → PteType → Nat × Nat → Nat → Except ε (σ × Nat)
  handlePteHole : Mem → σ → Nat → Nat × Nat → Nat → Except ε (σ × Nat)
  handlePostPte : Mem → σ → Nat → Nat × Nat → Nat → Except ε (σ × Nat)

/-- State carried through a mutating walk: the memory (PTE writes through the
mapped tables take effect here), the strategy state, and the callback trace. -/
structure MState (σ : Type) where
  mem : Mem
  strat : σ
  events : List Event

/-- Step d of the mutating walk loop: when the PTE left by `handle_pte` is not
present, invoke `handle_pte_hole` on it (the callback sees the slot already
holding that value); otherwise pass the pair through. -/
def holeStepM (f : PageFormat) (S : WalkerM σ ε) (mem1 : Mem) (idx : Nat)
    (sub : Nat × Nat) (s1 : σ × Nat) : Except ε (σ × Nat) :=
  if (f.getLevel idx).is_present s1.2 then Except.ok s1
  else S.handlePteHole mem1 s1.1 idx sub s1.2

/-- The body of the `for` loop of `do_walk_mut` (src/format.rs lines 192-228)
for one triple `p`, with the descent abstracted as `recurse`. The
classification uses the PTE value as read; the present check and the
stop-or-recurse check re-read the value as left by the callbacks, and the
descent target is `pte & physical_mask` of the value after `handle_pte` and
`handle_pte_hole` have returned. -/
def walkSlotM (f : PageFormat) (S : WalkerM σ ε)
    (recurse : Nat → Nat × Nat → MState σ → Except ε (MState σ))
    (idx phys : Nat) (p : Nat × Nat × Nat) (st : MState σ) :
    Except ε (MState σ) :=
  let lvl := f.getLevel idx
  let sub : Nat × Nat := (p.2.1, p.2.2)
  let pte0 := st.mem phys p.1
  let ptype := if idx == 0 || lvl.is_huge_page pte0 then PteType.page idx
    else PteType.pageTable idx
  (S.handlePte st.mem st.strat ptype sub pte0).bind fun s1 =>
    (holeStepM f S (updateMem st.mem phys p.1 s1.2) idx sub s1).bind fun s2 =>
      let evs2 := st.events ++ [Event.pte ptype sub pte0] ++
        (if lvl.is_present s1.2 then [] else [Event.hole idx sub s1.2])
      let st2 : MState σ := ⟨updateMem st.mem phys p.1 s2.2, s2.1, evs2⟩
      if idx == 0 || lvl.is_huge_page s2.2 then Except.ok st2
      else
        (recurse (s2.2 &&& f.physical_mask) sub st2).bind fun st3 =>
          let pteP := st3.mem phys p.1
          (S.handlePostPte st3.mem st3.strat idx sub pteP).map fun s4 =>
            ⟨updateMem st3.mem phys p.1 s4.2, s4.1,
              st3.events ++ [Event.post idx sub pteP]⟩

/-- `do_walk_mut` (src/format.rs lines 156-231), fuelled like `doWalkR`. -/
def doWalkM (f : PageFormat) (S : WalkerM σ ε) :
    Nat → Nat → Nat → Nat × Nat → MState σ → Except ε (MState σ)
  | 0, _, _, _, st => Except.ok st
  | fuel + 1, phys, index, r, st =>
    let idx := if f.levels.length ≤ index then f.levels.length - 1 else index
    (pageRanges f (f.getLevel idx) r.1 r.2).foldlM
      (fun st p => walkSlotM f S
        (fun ph sub st => doWalkM f S fuel ph (idx - 1) sub st) idx phys p st)
      st

/-- `PageFormat::walk_mut` (src/format.rs lines 237-248). -/
def walkM (f : PageFormat) (S : WalkerM σ ε) (root : Nat) (r : Nat × Nat)
    (st : MState σ) : Except ε (MState σ) :=
  doWalkM f S f.levels.length root (f.levels.length - 1) r st

/-- The `PteReader` strategy (src/address_space.rs lines 31-73 and
src/walkers/reader.rs): `handle_pte` stores the PTE whenever the
classification is a Page; the other callbacks are the trait defaults. -/
def readerS : WalkerR (Option Nat) Nat where
  handlePte := fun _ s t _ v => Except.ok (if t.is_page then some v else s)
  handlePteHole := fun _ s _ _ _ => Except.ok s
  handlePostPte := fun _ s _ _ _ => Except.ok s

/-- The mapper-chosen `PTE_NOT_FOUND` error constant, modelled as a fixed code. -/
def PTE_NOT_FOUND : Nat := 1

/-- `AddressSpace::read_pte` (src/address_space.rs lines 168-183): walk the
one-byte range `[va, va+1)` with a `PteReader` and return the captured PTE, or
the `PTE_NOT_FOUND` error when nothing was captured. -/
def read_pte (f : PageFormat) (mem : Mem) (root va : Nat) : Except Nat Nat :=
  match walkR f readerS mem root (va, va + 1) ⟨none, []⟩ with
  | Except.ok st =>
    match st.strat with
    | some pte => Except.ok pte
    | none => Except.error PTE_NOT_FOUND
  | Except.error e => Except.error e

/-- Strategy state of `PteRemover` (src/walkers/remover.rs): the two
`PteRemovalFlags` bits and the list of `free_page` calls made so far, in
order. -/
structure RemState where
  freePages : Bool
  freePageTables : Bool
  freed : List Nat
  deriving DecidableEq

/-- The `PteRemover` strategy (src/walkers/remover.rs lines 49-107).
`handle_pte` frees a present Page's physical page when `FREE_PAGES` is set and
zeroes the PTE; `handle_pte_hole` is the trait default; `handle_post_pte` maps
the child table at `physical_mask & pte`, scans `level.entries()` entries, and
when all are zero frees the table if `FREE_PAGE_TABLES` is set — returning the
PTE it received unchanged. -/
def removerS (f : PageFormat) : WalkerM RemState Nat where
  handlePte := fun _ s t _ pte =>
    Except.ok (match t with
      | PteType.page level =>
        let lvl := f.getLevel level
        if lvl.is_present pte then
          ((if s.freePages then
              { s with freed := s.freed ++ [f.physical_mask &&& pte] }
            else s), 0)
        else (s, pte)
      | PteType.pageTable _ => (s, pte))
  handlePteHole := fun _ s _ _ pte => Except.ok (s, pte)
  handlePostPte := fun mem s index _ pte =>
    let lvl := f.getLevel index
    let tbl := f.physical_mask &&& pte
    if (List.range lvl.entries).all fun i => mem tbl i == 0 then
      Except.ok ((if s.freePageTables then { s with freed := s.freed ++ [tbl] }
        else s), pte)
    else Except.ok (s, pte)

/-- Strategy state of `PteAllocator` (src/walkers/allocator.rs): the optional
leaf protection mask, and the pages the deterministic test mapper will hand
out on successive `alloc_page()` calls (`alloc_page` returns `Option<PTE>`;
an empty pool models a failing allocation). -/
structure AllocState where
  mask : Option Nat
  pool : List Nat
  deriving DecidableEq

/-- The `PteAllocator` strategy (src/walkers/allocator.rs lines 34-72).
`handle_pte_hole` fills a leaf hole with a fresh page when `mask` is set, and
an intermediate hole with a fresh page table; a `None` from `alloc_page()` is
silently skipped, exactly as the source's `if let Some(page) = ...`. -/
def allocS (f : PageFormat) : WalkerM AllocState Nat where
  handlePte := fun _ s _ _ pte => Except.ok (s, pte)
  handlePteHole := fun _ s index _ pte =>
    let lvl := f.getLevel index
    Except.ok (match index with
      | 0 =>
        match s.mask with
        | some m =>
          match s.pool with
          | page :: rest =>
            ({ s with pool := rest }, page ||| lvl.present_bit.2 ||| m)
          | [] => (s, pte)
        | none => (s, pte)
      | _ + 1 =>
        match s.pool with
        | pt :: rest =>
          ({ s with pool := rest },
            pt ||| lvl.present_bit.2 ||| lvl.page_table_mask |||
              (lvl.huge_page_bit.1 ^^^ lvl.huge_page_bit.2))
        | [] => (s, pte))
  handlePostPte := fun _ s _ _ pte => Except.ok (s, pte)

/-- One call of `PteAllocator::handle_pte_hole` (src/walkers/allocator.rs lines
48-71) in isolation, with `alloc` standing for what `mapper.alloc_page()`
returns (an `Option<PTE>`). The result is the PTE value left in the hole; the
callback itself always returns `Ok`, so the result is wrapped in `.ok`. -/
def pteAllocatorHole (f : PageFormat) (mask alloc : Option Nat)
    (index pte : Nat) : Except Nat Nat :=
  let lvl := f.getLevel index
  match index with
  | 0 =>
    match mask with
    | some m =>
      match alloc with
      | some page => Except.ok (page ||| lvl.present_bit.2 ||| m)
      | none => Except.ok pte
    | none => Except.ok pte
  | _ + 1 =>
    match alloc with
    | some pt =>
      Except.ok (pt ||| lvl.present_bit.2 ||| lvl.page_table_mask |||
        (lvl.huge_page_bit.1 ^^^ lvl.huge_page_bit.2))
    | none => Except.ok pte

/-- One call of `PteMapper::handle_pte_hole` (src/walkers/mapper.rs lines
50-70) in isolation: `alloc` is the `Result` of `mapper.alloc_page()`, which
the source propagates with `?`. The result is the (new PTE, new running mask)
pair. -/
def pteMapperHole (f : PageFormat) (mask : Nat) (alloc : Except Nat Nat)
    (index pte : Nat) : Except Nat (Nat × Nat) :=
  let lvl := f.getLevel index
  match index with
  | 0 => Except.ok (lvl.present_bit.2 ||| mask, mask + lvl.page_size)
  | _ + 1 =>
    alloc.bind fun pt =>
      Except.ok (pt ||| lvl.present_bit.2 ||| lvl.page_table_mask |||
        (lvl.huge_page_bit.1 ^^^ lvl.huge_page_bit.2), mask)

/-- `PteProtector::handle_pte` (src/walkers/protector.rs lines 47-67): on a
present Page, clear and set only the requested bits outside
`physical_mask | huge_page_bit.mask | present_bit.mask`; otherwise leave the
PTE unchanged. `mask` is the (clear, set) pair. -/
def pteProtectorHandlePte (f : PageFormat) (mask : Nat × Nat) (t : PteType)
    (pte : Nat) : Nat :=
  match t with
  | PteType.page level =>
    let lvl := f.getLevel level
    if lvl.is_present pte then
      let clear_mask := mask.1 &&&
        not64 (f.physical_mask ||| lvl.huge_page_bit.1 ||| lvl.present_bit.1)
      let set_mask := mask.2 &&&
        not64 (f.physical_mask ||| lvl.huge_page_bit.1 ||| lvl.present_bit.1)
      (pte &&& not64 clear_mask) ||| set_mask
    else pte
  | PteType.pageTable _ => pte

/-- Errors of the copy walkers: the mapper's `PAGE_NOT_PRESENT`, or the panic
that Rust slice indexing raises when the index range runs past the buffer. -/
inductive CopyError where
  | pageNotPresent
  | sliceOutOfBounds
  deriving DecidableEq

/-- Buffer cursor of the copy walkers: the offset into the buffer and the
buffer's total length (the byte contents do not matter for the claims). -/
structure CopyState where
  offset : Nat
  dataLen : Nat
  deriving DecidableEq

/-- `CopyFromWalker::handle_pte` (src/walkers/copy.rs lines 51-78): on a
present Page, `size = self.data.len().min(page.len())` where `page` is the
mapped page sliced from the in-page offset of `sub_range.start` — note the
source takes the FULL buffer length `self.data.len()`, not the remaining
length — and then `self.data[self.offset .. self.offset + size]` is written,
which panics when `self.offset + size` exceeds the buffer length. The model
returns `sliceOutOfBounds` exactly when that indexing would panic. -/
def copyFromHandlePte (f : PageFormat) (st : CopyState) (t : PteType)
    (subStart pte : Nat) : Except CopyError CopyState :=
  match t with
  | PteType.pageTable _ => Except.ok st
  | PteType.page level =>
    let lvl := f.getLevel level
    if lvl.is_present pte then
      let off := subStart &&& (lvl.page_size - 1)
      let size := min st.dataLen (lvl.page_size - off)
      if st.offset + size ≤ st.dataLen then
        Except.ok { st with offset := st.offset + size }
      else Except.error CopyError.sliceOutOfBounds
    else Except.error CopyError.pageNotPresent

/-- `CopyToWalker::handle_pte` (src/walkers/copy.rs lines 123-150): mirror
image of `copyFromHandlePte`; the panicking read is
`self.data[self.offset .. self.offset + size]` with `size` again computed from
the full `self.data.len()`. -/
def copyToHandlePte (f : PageFormat) (st : CopyState) (t : PteType)
    (subStart pte : Nat) : Except CopyError CopyState :=
  match t with
  | PteType.pageTable _ => Except.ok st
  | PteType.page level =>
    let lvl := f.getLevel level
    if lvl.is_present pte then
      let off := subStart &&& (lvl.page_size - 1)
      let size := min st.dataLen (lvl.page_size - off)
      if st.offset + size ≤ st.dataLen then
        Except.ok { st with offset := st.offset + size }
      else Except.error CopyError.sliceOutOfBounds
    else Except.error CopyError.pageNotPresent

namespace aarch64

/-- `PAGE_LEVELS_4K` (src/arch/aarch64.rs lines 5-34): the four AArch64 4K
levels, leaf first, with shifts 12/21/30/39; levels 1 and 2 support huge pages
via descriptor bit 1 being zero. -/
def PAGE_LEVELS_4K : List PageLevel :=
  [⟨12, 9, (1, 1), (0, 0), 0⟩,
   ⟨21, 9, (1, 1), (2, 0), 0⟩,
   ⟨30, 9, (1, 1), (2, 0), 0⟩,
   ⟨39, 9, (1, 1), (0, 0), 0⟩]

/-- `PAGE_FORMAT_4K_L3` (src/arch/aarch64.rs lines 43-46):
`levels: &PAGE_LEVELS_4K[0..3]`. -/
def PAGE_FORMAT_4K_L3 : PageFormat :=
  ⟨PAGE_LEVELS_4K.take 3, 0x000ffffffffff000⟩

/-- `PAGE_FORMAT_4K_L4` (src/arch/aarch64.rs lines 53-56): the source also
writes `levels: &PAGE_LEVELS_4K[0..3]` here, although its documentation says
four levels. -/
def PAGE_FORMAT_4K_L4 : PageFormat :=
  ⟨PAGE_LEVELS_4K.take 3, 0x000ffffffffff000⟩

end aarch64

/-- A two-level test format: the first two AArch64 4K levels (4K leaf pages,
2M level-1 pages with huge support), with the x86-64 style physical mask. -/
def tf : PageFormat := ⟨aarch64.PAGE_LEVELS_4K.take 2, 0x000ffffffffff000⟩

/-- A deliberately tiny two-level format for fully evaluated walks: 16-byte
leaf "pages" with 8 entries per leaf table, 128-byte level-1 pages with 4
entries per root table, huge pages marked by descriptor bit 1 being set. -/
def miniFmt : PageFormat :=
  ⟨[⟨4, 3, (1, 1), (0, 0), 0⟩, ⟨7, 2, (1, 1), (2, 2), 0⟩], 0xf00⟩

/-- All-zero memory. -/
def zeroMem : Mem := fun _ _ => 0

/-- Observe one memory slot of a mutating walk's result. -/
def memAt (r : Except Nat (MState σ)) (phys i : Nat) : Option Nat :=
  match r with
  | Except.ok st => some (st.mem phys i)
  | Except.error _ => none

/-- Observe the event trace of a mutating walk's result. -/
def eventsOf (r : Except Nat (MState σ)) : Option (List Event) :=
  match r with
  | Except.ok st => some st.events
  | Except.error _ => none

/-- Observe the strategy state of a mutating walk's result. -/
def stratOf (r : Except Nat (MState σ)) : Option σ :=
  match r with
  | Except.ok st => some st.strat
  | Except.error _ => none

/-- Memory holding one PTE `0x201` at slot 0 of the table at `0x100`: with the
test format `tf` this is a present 2M huge-page descriptor (bit 0 set, bit 1
clear). -/
def tfHugeMem : Mem := fun p i => if p = 0x100 ∧ i = 0 then 0x201 else 0

/-- Memory holding one PTE `0x203` at slot 0 of the table at `0x100`: with
`miniFmt` this is a present huge page at level 1 (bits 0 and 1 set). -/
def miniHugeMem : Mem := fun p i => if p = 0x100 ∧ i = 0 then 0x203 else 0

/-! Helper lemmas. -/

lemma exceptBind_ok (a : α) (g : α → Except ε β) : (Except.ok a).bind g = g a := rfl

lemma except_map_ok (a : α) (g : α → β) :
    (Except.ok a : Except ε α).map g = Except.ok (g a) := rfl

lemma testBit_USIZE_MAX (i : Nat) : USIZE_MAX.testBit i = decide (i < 64) := by
  rw [USIZE_MAX]
  exact Nat.testBit_two_pow_sub_one 64 i

lemma is_present_iff (l : PageLevel) (pte : Nat) :
    l.is_present pte = true ↔ pte &&& l.present_bit.1 = l.present_bit.2 := by
  unfold PageLevel.is_present
  exact beq_iff_eq

/-- A PTE that matches the present pattern and the huge pattern separately also
matches the combined pattern `is_huge_page` tests, when the level supports
huge pages. -/
lemma is_huge_page_of (l : PageLevel) (pte : Nat)
    (hm : l.huge_page_bit.1 ≠ 0)
    (hp : l.is_present pte = true)
    (hh : pte &&& l.huge_page_bit.1 = l.huge_page_bit.2) :
    l.is_huge_page pte = true := by
  have hpe : pte &&& l.present_bit.1 = l.present_bit.2 := (is_present_iff l pte).mp hp
  have hgoal : pte &&& (l.present_bit.1 ||| l.huge_page_bit.1) =
      l.present_bit.2 ||| l.huge_page_bit.2 := by
    apply Nat.eq_of_testBit_eq
    intro i
    have h1 := congrArg (fun n => n.testBit i) hpe
    have h2 := congrArg (fun n => n.testBit i) hh
    simp only [Nat.testBit_and] at h1 h2
    simp only [Nat.testBit_and, Nat.testBit_or, Bool.and_or_distrib_left, h1, h2]
  unfold PageLevel.is_huge_page
  simp [hm, hgoal]

/-- Every triple yielded by the scan has sub-range end
`level.end(start).min(range.end)`. -/
lemma pageRangesAux_end_eq (f : PageFormat) (l : PageLevel) (re : Nat) :
    ∀ n i st, ∀ p ∈ pageRangesAux f l re n i st, p.2.2 = min (l.endAddr p.2.1) re := by
  intro n
  induction n with
  | zero => intro i st p hp; simp [pageRangesAux] at hp
  | succ m ih =>
    intro i st p hp
    simp only [pageRangesAux, List.mem_cons] at hp
    rcases hp with h | h
    · subst h; rfl
    · exact ih _ _ _ h

/-- Consecutive triples of the scan advance the PTE index by one and the cursor
to `sign_extend(level.end(previous start) + 1)`. -/
lemma pageRangesAux_get_succ (f : PageFormat) (l : PageLevel) (re : Nat) :
    ∀ n i st k x y,
      (pageRangesAux f l re n i st).get? k = some x →
      (pageRangesAux f l re n i st).get? (k + 1) = some y →
      y.1 = x.1 + 1 ∧ y.2.1 = f.sign_extend (l.endAddr x.2.1 + 1) := by
  intro n
  induction n with
  | zero => intro i st k x y hx _; simp [pageRangesAux] at hx
  | succ m ih =>
    intro i st k x y hx hy
    cases k with
    | zero =>
      simp only [pageRangesAux, List.get?] at hx hy
      cases m with
      | zero => simp [pageRangesAux] at hy
      | succ m2 =>
        simp only [pageRangesAux, List.get?, Option.some.injEq] at hx hy
        subst hx; subst hy
        exact ⟨rfl, rfl⟩
    | succ k2 =>
      simp only [pageRangesAux, List.get?] at hx hy
      exact ih _ _ _ _ _ hx hy

/-- The physical address a `handle_pte` event would make the Remover free: the
masked PTE of a present Page-classified callback, nothing otherwise. -/
def leafFree (f : PageFormat) : Event → Option Nat
  | Event.pte (PteType.page l) _ v =>
    if (f.getLevel l).is_present v then some (f.physical_mask &&& v) else none
  | _ => none

/-- Invariant relating a remover-walk state to a later one: flags unchanged,
and the freed list grew by exactly the masked PTEs of the new present-Page
`handle_pte` events. -/
def RemInv (f : PageFormat) (st st' : MState RemState) : Prop :=
  st'.strat.freePages = st.strat.freePages ∧
  st'.strat.freePageTables = st.strat.freePageTables ∧
  ∃ new, st'.events = st.events ++ new ∧
    st'.strat.freed = st.strat.freed ++ new.filterMap (leafFree f)

lemma RemInv_refl (f : PageFormat) (st : MState RemState) : RemInv f st st :=
  ⟨rfl, rfl, [], by simp, by simp⟩

lemma RemInv_trans {f : PageFormat} {a b c : MState RemState}
    (h1 : RemInv f a b) (h2 : RemInv f b c) : RemInv f a c := by
  obtain ⟨hp1, ht1, n1, he1, hf1⟩ := h1
  obtain ⟨hp2, ht2, n2, he2, hf2⟩ := h2
  refine ⟨hp2.trans hp1, ht2.trans ht1, n1 ++ n2, ?_, ?_⟩
  · rw [he2, he1, List.append_assoc]
  · rw [hf2, hf1, List.filterMap_append, List.append_assoc]

lemma remover_pte_freed (f : PageFormat) (mem : Mem) (s : RemState) (t : PteType)
    (sub : Nat × Nat) (pte : Nat) (hfp : s.freePages = true) :
    ∃ s1 pte1, (removerS f).handlePte mem s t sub pte = Except.ok (s1, pte1) ∧
      s1.freePages = s.freePages ∧ s1.freePageTables = s.freePageTables ∧
      s1.freed = s.freed ++ (leafFree f (Event.pte t sub pte)).toList := by
  cases t with
  | page l =>
    by_cases hpres : (f.getLevel l).is_present pte
    · refine ⟨{ s with freed := s.freed ++ [f.physical_mask &&& pte] }, 0, ?_, rfl, rfl, ?_⟩
      · simp [removerS, hpres, hfp]
      · simp [leafFree, hpres]
    · refine ⟨s, pte, ?_, rfl, rfl, ?_⟩
      · simp [removerS, hpres]
      · simp [leafFree, hpres]
  | pageTable l =>
    exact ⟨s, pte, rfl, rfl, rfl, by simp [leafFree]⟩

lemma holeStep_remover (f : PageFormat) (mem : Mem) (idx : Nat) (sub : Nat × Nat)
    (s1 : RemState × Nat) : holeStepM f (removerS f) mem idx sub s1 = Except.ok s1 := by
  unfold holeStepM
  split
  · rfl
  · rfl

lemma remover_post (f : PageFormat) (mem : Mem) (s : RemState) (idx : Nat)
    (sub : Nat × Nat) (pte : Nat) (hft : s.freePageTables = false) :
    (removerS f).handlePostPte mem s idx sub pte = Except.ok (s, pte) := by
  show (if _ then _ else _) = _
  split
  · simp [hft]
  · rfl

lemma leafFree_hole (f : PageFormat) (b : Bool) (idx : Nat) (sub : Nat × Nat) (v : Nat) :
    List.filterMap (leafFree f) (if b then [] else [Event.hole idx sub v]) = [] := by
  cases b <;> simp [leafFree]

lemma remover_slot (f : PageFormat)
    (recurse : Nat → Nat × Nat → MState RemState → Except Nat (MState RemState))
    (idx phys : Nat) (p : Nat × Nat × Nat) (st st' : MState RemState)
    (hrec : ∀ ph sub s s', s.strat.freePages = true → s.strat.freePageTables = false →
      recurse ph sub s = Except.ok s' → RemInv f s s')
    (hfp : st.strat.freePages = true) (hft : st.strat.freePageTables = false)
    (h : walkSlotM f (removerS f) recurse idx phys p st = Except.ok st') :
    RemInv f st st' := by
  unfold walkSlotM at h
  dsimp only at h
  obtain ⟨s1, pte1, hpte, hfp1, hft1, hfreed1⟩ :=
    remover_pte_freed f st.mem st.strat
      (if idx == 0 || (f.getLevel idx).is_huge_page (st.mem phys p.1) then PteType.page idx
       else PteType.pageTable idx) (p.2.1, p.2.2) (st.mem phys p.1) hfp
  rw [hpte, exceptBind_ok, holeStep_remover, exceptBind_ok] at h
  dsimp only at h
  set ptype := (if idx == 0 || (f.getLevel idx).is_huge_page (st.mem phys p.1) then PteType.page idx
    else PteType.pageTable idx) with hptype
  set st2 : MState RemState :=
    ⟨updateMem st.mem phys p.1 pte1, s1,
      st.events ++ [Event.pte ptype (p.2.1, p.2.2) (st.mem phys p.1)] ++
        (if (f.getLevel idx).is_present pte1 then []
         else [Event.hole idx (p.2.1, p.2.2) pte1])⟩ with hst2
  have hfp2 : st2.strat.freePages = true := hfp1.trans hfp
  have hft2 : st2.strat.freePageTables = false := hft1.trans hft
  have hinv2 : RemInv f st st2 := by
    refine ⟨hfp1, hft1, [Event.pte ptype (p.2.1, p.2.2) (st.mem phys p.1)] ++
      (if (f.getLevel idx).is_present pte1 then []
       else [Event.hole idx (p.2.1, p.2.2) pte1]), ?_, ?_⟩
    · rw [hst2]
      dsimp only
      rw [List.append_assoc]
    · rw [hst2]
      dsimp only
      rw [List.filterMap_append, leafFree_hole, List.append_nil, hfreed1]
      cases hlf : leafFree f (Event.pte ptype (p.2.1, p.2.2) (st.mem phys p.1)) <;>
        simp [List.filterMap, hlf, Option.toList]
  split at h
  · simp only [Except.ok.injEq] at h
    rw [← h]
    exact hinv2
  · cases hr : recurse (pte1 &&& f.physical_mask) (p.2.1, p.2.2) st2 with
    | error e =>
      rw [hr] at h
      exact absurd h (by simp [Except.bind])
    | ok st3 =>
      rw [hr, exceptBind_ok] at h
      have hinv3 : RemInv f st2 st3 := hrec _ _ _ _ hfp2 hft2 hr
      have hft3 : st3.strat.freePageTables = false := by
        rcases hinv3 with ⟨_, ht, _⟩
        rw [ht]
        exact hft2
      rw [remover_post f st3.mem st3.strat idx _ (st3.mem phys p.1) hft3, except_map_ok] at h
      simp only [Except.ok.injEq] at h
      rw [← h]
      refine RemInv_trans (RemInv_trans hinv2 hinv3) ?_
      refine ⟨rfl, rfl, [Event.post idx p.2 (st3.mem phys p.1)], rfl, ?_⟩
      simp [leafFree]

lemma remover_slots (f : PageFormat)
    (recurse : Nat → Nat × Nat → MState RemState → Except Nat (MState RemState))
    (idx phys : Nat)
    (hrec : ∀ ph sub s s', s.strat.freePages = true → s.strat.freePageTables = false →
      recurse ph sub s = Except.ok s' → RemInv f s s') :
    ∀ (ps : List (Nat × Nat × Nat)) (st st' : MState RemState),
      st.strat.freePages = true → st.strat.freePageTables = false →
      List.foldlM (fun st p => walkSlotM f (removerS f) recurse idx phys p st) st ps =
        Except.ok st' →
      RemInv f st st' := by
  intro ps
  induction ps with
  | nil =>
    intro st st' _ _ h
    have h2 : st = st' := Except.ok.inj h
    rw [← h2]
    exact RemInv_refl f st
  | cons q qs ih =>
    intro st st' hfp hft h
    rw [List.foldlM_cons] at h
    cases hm : walkSlotM f (removerS f) recurse idx phys q st with
    | error e =>
      rw [hm] at h
      exact absurd h (by simp [Bind.bind, Except.bind])
    | ok mid =>
      rw [hm] at h
      have hstep := remover_slot f recurse idx phys q st mid hrec hfp hft hm
      have hbind : (Except.ok mid >>= fun st =>
          List.foldlM (fun st p => walkSlotM f (removerS f) recurse idx phys p st) st qs) =
          List.foldlM (fun st p => walkSlotM f (removerS f) recurse idx phys p st) mid qs := rfl
      rw [hbind] at h
      have hp1 := hstep.1
      have ht1 := hstep.2.1
      have := ih mid st' (hp1.trans hfp) (ht1.trans hft) h
      exact RemInv_trans hstep this

lemma remover_doWalk (f : PageFormat) :
    ∀ (fuel phys index : Nat) (r : Nat × Nat) (st st' : MState RemState),
      st.strat.freePages = true → st.strat.freePageTables = false →
      doWalkM f (removerS f) fuel phys index r st = Except.ok st' →
      RemInv f st st' := by
  intro fuel
  induction fuel with
  | zero =>
    intro phys index r st st' _ _ h
    have h2 : st = st' := Except.ok.inj h
    rw [← h2]
    exact RemInv_refl f st
  | succ n ih =>
    intro phys index r st st' hfp hft h
    unfold doWalkM at h
    exact remover_slots f _ _ phys
      (fun ph sub s s' hp ht hr => ih ph _ sub s s' hp ht hr)
      _ st st' hfp hft h

/-- How one event updates the `PteReader` capture: a Page-classified
`handle_pte` stores the PTE, everything else leaves it alone. -/
def readerStep (s : Option Nat) (e : Event) : Option Nat :=
  match e with
  | Event.pte t _ v => if t.is_page then some v else s
  | _ => s

/-- The `PteReader` capture after a list of events. -/
def readerFold (s : Option Nat) (es : List Event) : Option Nat := es.foldl readerStep s

/-- Invariant relating a reader-walk state to a later one: the capture is the
fold of the new events over the old capture. -/
def RdInv (st st' : RState (Option Nat)) : Prop :=
  ∃ new, st'.events = st.events ++ new ∧ st'.strat = readerFold st.strat new

lemma RdInv_refl (st : RState (Option Nat)) : RdInv st st := ⟨[], by simp, rfl⟩

lemma RdInv_trans {a b c : RState (Option Nat)} (h1 : RdInv a b) (h2 : RdInv b c) :
    RdInv a c := by
  obtain ⟨n1, he1, hs1⟩ := h1
  obtain ⟨n2, he2, hs2⟩ := h2
  refine ⟨n1 ++ n2, ?_, ?_⟩
  · rw [he2, he1, List.append_assoc]
  · rw [hs2, hs1, readerFold, readerFold, readerFold, List.foldl_append]

lemma if_hole_reader (c : Prop) [Decidable c] (mem : Mem) (s1 : Option Nat) (idx : Nat)
    (sub : Nat × Nat) (pte : Nat) :
    (if c then Except.ok s1 else readerS.handlePteHole mem s1 idx sub pte) =
      Except.ok s1 := by
  split <;> rfl

lemma reader_slot (mem : Mem)
    (recurse : Nat → Nat × Nat → RState (Option Nat) → Except Nat (RState (Option Nat)))
    (f : PageFormat) (idx phys : Nat) (p : Nat × Nat × Nat)
    (st st' : RState (Option Nat))
    (hrec : ∀ ph sub s s', recurse ph sub s = Except.ok s' → RdInv s s')
    (h : walkSlotR f readerS mem recurse idx phys p st = Except.ok st') :
    RdInv st st' := by
  unfold walkSlotR at h
  dsimp only at h
  rw [show readerS.handlePte mem st.strat
      (if idx == 0 || (f.getLevel idx).is_huge_page (mem phys p.1) then PteType.page idx
       else PteType.pageTable idx) (p.2.1, p.2.2) (mem phys p.1) =
      Except.ok (readerStep st.strat (Event.pte
        (if idx == 0 || (f.getLevel idx).is_huge_page (mem phys p.1) then PteType.page idx
         else PteType.pageTable idx) (p.2.1, p.2.2) (mem phys p.1))) from rfl,
    exceptBind_ok, if_hole_reader, exceptBind_ok] at h
  set ptype := (if idx == 0 || (f.getLevel idx).is_huge_page (mem phys p.1) then PteType.page idx
    else PteType.pageTable idx) with hptype
  set st2 : RState (Option Nat) :=
    ⟨readerStep st.strat (Event.pte ptype (p.2.1, p.2.2) (mem phys p.1)),
      st.events ++ [Event.pte ptype (p.2.1, p.2.2) (mem phys p.1)] ++
        (if (f.getLevel idx).is_present (mem phys p.1) then []
         else [Event.hole idx (p.2.1, p.2.2) (mem phys p.1)])⟩ with hst2
  have hinv2 : RdInv st st2 := by
    refine ⟨[Event.pte ptype (p.2.1, p.2.2) (mem phys p.1)] ++
      (if (f.getLevel idx).is_present (mem phys p.1) then []
       else [Event.hole idx (p.2.1, p.2.2) (mem phys p.1)]), ?_, ?_⟩
    · rw [hst2]
      dsimp only
      rw [List.append_assoc]
    · rw [hst2]
      dsimp only
      rw [readerFold, List.foldl_append]
      cases hc : (f.getLevel idx).is_present (mem phys p.1) <;> simp [readerStep]
  split at h
  · have h2 : st2 = st' := Except.ok.inj h
    rw [← h2]
    exact hinv2
  · cases hr : recurse ((mem phys p.1) &&& f.physical_mask) (p.2.1, p.2.2) st2 with
    | error e =>
      rw [hr] at h
      exact absurd h (by simp [Except.bind])
    | ok st3 =>
      rw [hr, exceptBind_ok] at h
      have hinv3 : RdInv st2 st3 := hrec _ _ _ _ hr
      rw [show readerS.handlePostPte mem st3.strat idx (p.2.1, p.2.2) (mem phys p.1) =
        Except.ok st3.strat from rfl, except_map_ok] at h
      have h4 : _ = st' := Except.ok.inj h
      rw [← h4]
      refine RdInv_trans (RdInv_trans hinv2 hinv3) ?_
      exact ⟨[Event.post idx (p.2.1, p.2.2) (mem phys p.1)], rfl, rfl⟩

lemma reader_slots (mem : Mem)
    (recurse : Nat → Nat × Nat → RState (Option Nat) → Except Nat (RState (Option Nat)))
    (f : PageFormat) (idx phys : Nat)
    (hrec : ∀ ph sub s s', recurse ph sub s = Except.ok s' → RdInv s s') :
    ∀ (ps : List (Nat × Nat × Nat)) (st st' : RState (Option Nat)),
      List.foldlM (fun st p => walkSlotR f readerS mem recurse idx phys p st) st ps =
        Except.ok st' →
      RdInv st st' := by
  intro ps
  induction ps with
  | nil =>
    intro st st' h
    have h2 : st = st' := Except.ok.inj h
    rw [← h2]
    exact RdInv_refl st
  | cons q qs ih =>
    intro st st' h
    rw [List.foldlM_cons] at h
    cases hm : walkSlotR f readerS mem recurse idx phys q st with
    | error e =>
      rw [hm] at h
      exact absurd h (by simp [Bind.bind, Except.bind])
    | ok mid =>
      rw [hm] at h
      have hbind : (Except.ok mid >>= fun st =>
          List.foldlM (fun st p => walkSlotR f readerS mem recurse idx phys p st) st qs) =
          List.foldlM (fun st p => walkSlotR f readerS mem recurse idx phys p st) mid qs := rfl
      rw [hbind] at h
      exact RdInv_trans (reader_slot mem recurse f idx phys q st mid hrec hm) (ih mid st' h)

lemma reader_doWalk (f : PageFormat) (mem : Mem) :
    ∀ (fuel phys index : Nat) (r : Nat × Nat) (st st' : RState (Option Nat)),
      doWalkR f readerS mem fuel phys index r st = Except.ok st' →
      RdInv st st' := by
  intro fuel
  induction fuel with
  | zero =>
    intro phys index r st st' h
    have h2 : st = st' := Except.ok.inj h
    rw [← h2]
    exact RdInv_refl st
  | succ n ih =>
    intro phys index r st st' h
    unfold doWalkR at h
    exact reader_slots mem _ f _ phys (fun ph sub s s' hr => ih ph _ sub s s' hr) _ st st' h

/-- One-step unfolding of the fuelled read-only walk. -/
lemma doWalkR_succ (f : PageFormat) (S : WalkerR σ ε) (mem : Mem) (fuel phys index : Nat)
    (r : Nat × Nat) (st : RState σ) :
    doWalkR f S mem (fuel + 1) phys index r st =
      (pageRanges f
        (f.getLevel (if f.levels.length ≤ index then f.levels.length - 1 else index)) r.1
        r.2).foldlM
        (fun st p => walkSlotR f S mem
          (fun ph sub st => doWalkR f S mem fuel ph
            ((if f.levels.length ≤ index then f.levels.length - 1 else index) - 1) sub st)
          (if f.levels.length ≤ index then f.levels.length - 1 else index) phys p st) st := rfl

/-- A level-0 read-only walk of `[0, 1)` with the reader always captures the
PTE at slot 0 of the table at `ph`, whatever its present bit says. -/
lemma reader_level0 (mem : Mem) (ph : Nat) (s : Option Nat) (evs0 : List Event) :
    ∃ evs, doWalkR tf readerS mem 1 ph 0 (0, 1) ⟨s, evs0⟩ =
      Except.ok ⟨some (mem ph 0), evs⟩ := by
  have e0 : pageRanges tf (tf.getLevel 0) 0 1 = [(0, 0, 1)] := by decide
  simp only [doWalkR]
  rw [show tf.levels.length = 2 from rfl]
  norm_num
  rw [e0]
  simp only [List.foldlM_cons, List.foldlM_nil]
  unfold walkSlotR
  dsimp only
  rw [show ((0 : Nat) == 0 || (tf.getLevel 0).is_huge_page (mem ph 0)) = true from rfl]
  rw [show readerS.handlePte mem s (if true = true then PteType.page 0 else PteType.pageTable 0)
    (0, 1) (mem ph 0) = Except.ok (some (mem ph 0)) from rfl]
  rw [exceptBind_ok, if_hole_reader, exceptBind_ok]
  exact ⟨_, rfl⟩

/-- Over the format `tf`, `read_pte` of address 0 descends through the root
PTE — present or not — and returns the PTE found at slot 0 of the child table
`root PTE & physical_mask`, provided the root PTE is not a huge mapping. -/
lemma read_pte_hole_lemma (mem : Mem) (root : Nat)
    (hh : (tf.getLevel 1).is_huge_page (mem root 0) = false) :
    read_pte tf mem root 0 = Except.ok (mem ((mem root 0) &&& tf.physical_mask) 0) := by
  have e1 : pageRanges tf (tf.getLevel 1) 0 1 = [(0, 0, 1)] := by decide
  unfold read_pte walkR
  rw [show tf.levels.length = 2 from rfl, show (2 : Nat) - 1 = 1 from rfl,
    show (0 : Nat) + 1 = 1 from rfl]
  rw [show (2 : Nat) = 1 + 1 from rfl, doWalkR_succ]
  rw [show tf.levels.length = 2 from rfl]
  norm_num
  rw [e1]
  simp only [List.foldlM_cons, List.foldlM_nil]
  unfold walkSlotR
  dsimp only
  rw [show ((1 : Nat) == 0) = false from rfl, Bool.false_or, hh]
  rw [show readerS.handlePte mem none (if false = true then PteType.page 1 else PteType.pageTable 1)
    (0, 1) (mem root 0) = Except.ok none from rfl]
  rw [exceptBind_ok, if_hole_reader, exceptBind_ok]
  rw [if_neg (by simp)]
  obtain ⟨evs, hin⟩ := reader_level0 mem ((mem root 0) &&& tf.physical_mask) none
    ([] ++ [Event.pte (if false = true then PteType.page 1 else PteType.pageTable 1) (0, 1) (mem root 0)] ++
      (if (tf.getLevel 1).is_present (mem root 0) then []
       else [Event.hole 1 (0, 1) (mem root 0)]))
  rw [hin]
  rfl

/-! The claims. -/

/-- C1 counterexample: at level 0 of `tf` over the range `[0, 0x2000)`, the
walk's sub-range ends are `[0xfff, 0x1fff]` — `level.end(state)` clipped — and
not the claimed `min(level.end(state) + 1, range.end) = [0x1000, 0x2000]`; the
sub-range of a fully covered page ends at the page's last address, not one
past it. -/
theorem c1_counterexample :
    pageRanges tf (tf.getLevel 0) 0 0x2000 = [(0, 0, 0xfff), (1, 0x1000, 0x1fff)]
    ∧ [min ((tf.getLevel 0).endAddr 0 + 1) 0x2000,
       min ((tf.getLevel 0).endAddr 0x1000 + 1) 0x2000] = [0x1000, 0x2000]
    ∧ (pageRanges tf (tf.getLevel 0) 0 0x2000).map (fun p => p.2.2) ≠
      [min ((tf.getLevel 0).endAddr 0 + 1) 0x2000,
       min ((tf.getLevel 0).endAddr 0x1000 + 1) 0x2000] := by
  decide

/-- C1 (amended): the (pte_index, sub-range) pairs of a walk at one level are
produced by a cursor starting at `sign_extend(range.start)`; each step yields
the sub-range `state .. min(L.end(state), range.end)` — the end is the page's
LAST address clipped to `range.end`, not one past it — and advances the cursor
to `sign_extend(L.end(state) + 1)` while the PTE index advances by one from
`pte_index(range.start)`. -/
theorem c1_subrange_cursor_amended (f : PageFormat) (l : PageLevel) (rs re : Nat) :
    (∀ p ∈ pageRanges f l rs re, p.2.2 = min (l.endAddr p.2.1) re)
    ∧ (∀ x t, pageRanges f l rs re = x :: t →
        x.1 = l.pte_index rs ∧ x.2.1 = f.sign_extend rs)
    ∧ (∀ k x y, (pageRanges f l rs re).get? k = some x →
        (pageRanges f l rs re).get? (k + 1) = some y →
        y.1 = x.1 + 1 ∧ y.2.1 = f.sign_extend (l.endAddr x.2.1 + 1)) := by
  refine ⟨fun p hp => pageRangesAux_end_eq f l re _ _ _ p hp, ?_,
    fun k x y hx hy => pageRangesAux_get_succ f l re _ _ _ k x y hx hy⟩
  intro x t hx
  unfold pageRanges at hx
  dsimp only at hx
  rcases hn : l.pte_index (re + l.page_size - 1) - l.pte_index rs with _ | m
  · rw [hn] at hx; simp [pageRangesAux] at hx
  · rw [hn] at hx
    simp only [pageRangesAux, List.cons.injEq] at hx
    rcases hx with ⟨h1, _⟩
    subst h1
    exact ⟨rfl, rfl⟩

/-- C1 witness: the second pair of the `[0, 0x2000)` walk at level 0 of `tf`
has index `0 + 1` and cursor `sign_extend(end(0) + 1) = 0x1000`. -/
theorem c1_witness :
    (1 : Nat) = 0 + 1 ∧ (0x1000 : Nat) = tf.sign_extend ((tf.getLevel 0).endAddr 0 + 1) :=
  (c1_subrange_cursor_amended tf (tf.getLevel 0) 0 0x2000).2.2 0
    (0, 0, 0xfff) (1, 0x1000, 0x1fff) (by decide) (by decide)

set_option maxRecDepth 1000000 in
/-- C2: evaluating `PteRemover::handle_post_pte` with `FREE_PAGE_TABLES` set on
a parent PTE `0x2003` whose child table (at `0x2003 & physical_mask = 0x2000`)
is entirely zero: the child table IS freed, but the parent PTE comes back
unchanged at `0x2003` — it is never set to zero, contradicting the claim (and
spec §4.8 / property 8). -/
theorem c2_post_pte_not_zeroed :
    (removerS tf).handlePostPte zeroMem ⟨false, true, []⟩ 1 (0, 63) 0x2003 =
      Except.ok (⟨false, true, [0x2000]⟩, 0x2003)
    ∧ tf.physical_mask &&& 0x2003 = 0x2000
    ∧ (0x2003 : Nat) ≠ 0 := by
  decide

/-- C3: for every `walk_mut` with the Remover strategy configured with the
`FREE_PAGES` flag (and without `FREE_PAGE_TABLES`, so that only leaf frees
occur): (1) the `free_page` calls made during the walk are exactly the masked
PTEs of the Page-classified `handle_pte` callbacks whose PTE was present —
one call per visited present leaf, in visit order, and none for non-present
PTEs or page-table PTEs; (2) `handle_pte` on a present leaf frees it once
(under `FREE_PAGES`) and returns PTE value 0. -/
theorem c3_remover_free_pages (f : PageFormat) (root : Nat) (r : Nat × Nat)
    (st st' : MState RemState)
    (hfp : st.strat.freePages = true) (hft : st.strat.freePageTables = false)
    (h : walkM f (removerS f) root r st = Except.ok st') :
    (∃ new, st'.events = st.events ++ new ∧
      st'.strat.freed = st.strat.freed ++ new.filterMap (leafFree f))
    ∧ (∀ (mem : Mem) (s : RemState) (lv : Nat) (sub : Nat × Nat) (pte : Nat),
        (f.getLevel lv).is_present pte = true →
        (removerS f).handlePte mem s (PteType.page lv) sub pte =
          Except.ok ((if s.freePages then
            { s with freed := s.freed ++ [f.physical_mask &&& pte] } else s), 0)) := by
  constructor
  · exact (remover_doWalk f _ root _ r st st' hfp hft h).2.2
  · intro mem s lv sub pte hpres
    simp [removerS, hpres]

/-- C3 witness: a remover walk of `[0, 16)` over `miniFmt` with an empty
hierarchy issues its callbacks and frees nothing, matching the filter of its
own event trace. -/
theorem c3_witness :
    ∃ new, ([Event.pte (PteType.pageTable 1) (0, 16) 0, Event.hole 1 (0, 16) 0,
      Event.pte (PteType.page 0) (0, 15) 0, Event.hole 0 (0, 15) 0,
      Event.post 1 (0, 16) 0] : List Event) = [] ++ new ∧
      ([] : List Nat) = [] ++ new.filterMap (leafFree miniFmt) :=
  (c3_remover_free_pages miniFmt 0x100 (0, 16) ⟨zeroMem, ⟨true, false, []⟩, []⟩
    ⟨updateMem (updateMem (updateMem zeroMem 0x100 0 0) 0 0 0) 0x100 0 0,
      ⟨true, false, []⟩,
      [Event.pte (PteType.pageTable 1) (0, 16) 0, Event.hole 1 (0, 16) 0,
       Event.pte (PteType.page 0) (0, 15) 0, Event.hole 0 (0, 15) 0,
       Event.post 1 (0, 16) 0]⟩ rfl rfl rfl).1

/-- C4: the copy walkers size the per-page copy as
`min(data.len(), page.len())` using the FULL buffer length instead of the
remaining length. At the second page of a copy with a 5000-byte buffer
(cursor already at 4096), the code computes size 4096 and indexes
`data[4096 .. 8192]`, past the 5000-byte buffer — a panic in Rust — where the
claim's `n = min(remaining, page remainder)` is 904. -/
theorem c4_copy_length_overrun :
    copyFromHandlePte tf ⟨4096, 5000⟩ (PteType.page 0) 0x1000 0x2001 =
      Except.error CopyError.sliceOutOfBounds
    ∧ copyToHandlePte tf ⟨4096, 5000⟩ (PteType.page 0) 0x1000 0x2001 =
      Except.error CopyError.sliceOutOfBounds
    ∧ (tf.getLevel 0).is_present 0x2001 = true
    ∧ min (5000 - 4096) ((tf.getLevel 0).page_size -
        (0x1000 &&& ((tf.getLevel 0).page_size - 1))) = 904 := by
  decide

/-- C5 counterexample: `PteAllocator::handle_pte_hole` with a failing
`alloc_page()` (it returns `Option`, here `none`) at a leaf hole returns `Ok`
with the hole PTE unchanged — the allocation failure is silently ignored and
does not abort the walk; the same happens at an intermediate hole. -/
theorem c5_counterexample :
    pteAllocatorHole tf (some 2) none 0 5 = Except.ok 5
    ∧ pteAllocatorHole tf (some 2) none 1 5 = Except.ok 5 := by
  decide

/-- C5 (amended): alloc_page failure behaviour differs between the two
allocating walkers. In `PteMapper::handle_pte_hole` an intermediate-table
allocation failure propagates as the mapper's error and aborts the walk; in
`PteAllocator::handle_pte_hole` a failed `alloc_page()` (a `None`) is
silently ignored and leaves the hole PTE unchanged, returning `Ok`. -/
theorem c5_alloc_failure_amended (f : PageFormat) (m e : Nat) (mask : Option Nat)
    (index pte : Nat) :
    (index ≠ 0 → pteMapperHole f m (Except.error e) index pte = Except.error e)
    ∧ pteAllocatorHole f mask none index pte = Except.ok pte := by
  constructor
  · intro h
    cases index with
    | zero => exact absurd rfl h
    | succ n => rfl
  · cases index with
    | zero => cases mask <;> rfl
    | succ n => rfl

/-- C5 witness: a failing `alloc_page` in `PteMapper` at level 1 propagates
error code 7, while a failing `alloc_page` in `PteAllocator` at level 0 leaves
PTE 5 in place. -/
theorem c5_witness :
    pteMapperHole tf 0 (Except.error 7) 1 5 = Except.error 7
    ∧ pteAllocatorHole tf (some 2) none 0 5 = Except.ok 5 :=
  ⟨(c5_alloc_failure_amended tf 0 7 none 1 5).1 (by decide),
   (c5_alloc_failure_amended tf 0 7 (some 2) 0 5).2⟩

/-- C6: for any (clear, set) masks and any PTE, `PteProtector::handle_pte`
leaves every bit selected by `physical_mask`, the level's `present_bit` mask,
or the level's `huge_page_bit` mask unchanged (the xor of old and new PTE is
zero on that bit set) — on present leaves, where it rewrites the PTE, and
trivially on page-table classifications, which it leaves untouched. The
width hypotheses say the masks are `u64` values. -/
theorem c6_protect_preserves_bits (f : PageFormat) (m0 m1 pte lv : Nat)
    (hp : f.physical_mask < 2 ^ 64)
    (hpr : (f.getLevel lv).present_bit.1 < 2 ^ 64)
    (hhg : (f.getLevel lv).huge_page_bit.1 < 2 ^ 64) :
    (pteProtectorHandlePte f (m0, m1) (PteType.page lv) pte ^^^ pte) &&&
      (f.physical_mask ||| (f.getLevel lv).present_bit.1 |||
        (f.getLevel lv).huge_page_bit.1) = 0
    ∧ pteProtectorHandlePte f (m0, m1) (PteType.pageTable lv) pte = pte := by
  refine ⟨?_, rfl⟩
  unfold pteProtectorHandlePte
  by_cases hpres : (f.getLevel lv).is_present pte
  · simp only [hpres, if_true]
    apply Nat.eq_of_testBit_eq
    intro i
    simp only [Nat.testBit_and, Nat.testBit_or, Nat.testBit_xor, Nat.zero_testBit, not64,
      testBit_USIZE_MAX]
    by_cases hi : i < 64
    · rw [show (decide (i < 64)) = true by simp [hi]]
      generalize pte.testBit i = p
      generalize m0.testBit i = a
      generalize m1.testBit i = b
      generalize f.physical_mask.testBit i = c
      generalize (f.getLevel lv).huge_page_bit.1.testBit i = d
      generalize (f.getLevel lv).present_bit.1.testBit i = g
      revert p a b c d g
      decide
    · have h64 : (2 : Nat) ^ 64 ≤ 2 ^ i := Nat.pow_le_pow_right (by omega) (by omega)
      have hc : f.physical_mask.testBit i = false := Nat.testBit_lt_two_pow (by omega)
      have hd : (f.getLevel lv).huge_page_bit.1.testBit i = false :=
        Nat.testBit_lt_two_pow (by omega)
      have hg : (f.getLevel lv).present_bit.1.testBit i = false :=
        Nat.testBit_lt_two_pow (by omega)
      rw [hc, hd, hg]
      simp [hi]
  · simp [hpres]

/-- C6 witness: protecting PTE `0x2003` at level 0 of `tf` with
clear mask 2 and set mask 4 keeps every physical/present/huge bit. -/
theorem c6_witness :
    (pteProtectorHandlePte tf (2, 4) (PteType.page 0) 0x2003 ^^^ 0x2003) &&&
      (tf.physical_mask ||| (tf.getLevel 0).present_bit.1 |||
        (tf.getLevel 0).huge_page_bit.1) = 0
    ∧ pteProtectorHandlePte tf (2, 4) (PteType.pageTable 0) 0x2003 = 0x2003 :=
  c6_protect_preserves_bits tf 2 4 0x2003 0 (by decide) (by decide) (by decide)

/-- C7 counterexample: in a `walk_mut`, the stop-or-recurse check re-evaluates
`is_huge_page` on the PTE value as left by the callbacks. Here the Remover
visits a PTE at level 1 of `miniFmt` that satisfies both the present and the
huge condition (`0x203`), classifies it as a Page — and then, because the
Remover zeroed it, descends below it and issues level-0 callbacks for the
"children" of the Page-classified PTE, contradicting the claim for mutating
walks. -/
theorem c7_counterexample :
    (miniFmt.getLevel 1).is_huge_page 0x203 = true
    ∧ (miniFmt.getLevel 1).is_present 0x203 = true
    ∧ (miniFmt.getLevel 1).huge_page_bit.1 ≠ 0
    ∧ (eventsOf (walkM miniFmt (removerS miniFmt) 0x100 (0, 17)
        ⟨miniHugeMem, ⟨true, false, []⟩, []⟩)).map
        (fun es => es.any fun e => eventLevel e == 0) = some true := by
  decide

/-- C7 (amended): in the READ-ONLY walk (`do_walk`), at any level with a
nonzero huge mask, a PTE satisfying both the present condition and the
huge-page condition is classified `Page` at that level and terminates the
recursion there: the slot contributes exactly its single `handle_pte`
callback — no `handle_pte_hole`, no descent (the equation holds for every
`recurse` continuation, which is never invoked), and no `handle_post_pte`.
In `walk_mut` the same holds only as long as the callbacks leave the PTE
satisfying the huge condition. -/
theorem c7_huge_terminates_amended (f : PageFormat) (S : WalkerR σ ε) (mem : Mem)
    (recurse : Nat → Nat × Nat → RState σ → Except ε (RState σ))
    (idx phys : Nat) (p : Nat × Nat × Nat) (st : RState σ)
    (hm : (f.getLevel idx).huge_page_bit.1 ≠ 0)
    (hlevel : idx ≠ 0)
    (hp : (f.getLevel idx).is_present (mem phys p.1) = true)
    (hh : mem phys p.1 &&& (f.getLevel idx).huge_page_bit.1 =
      (f.getLevel idx).huge_page_bit.2) :
    walkSlotR f S mem recurse idx phys p st =
      (S.handlePte mem st.strat (PteType.page idx) (p.2.1, p.2.2) (mem phys p.1)).bind
        fun s1 => Except.ok
          ⟨s1, st.events ++ [Event.pte (PteType.page idx) (p.2.1, p.2.2) (mem phys p.1)]⟩ := by
  have _hl := hlevel
  have hhuge := is_huge_page_of _ _ hm hp hh
  unfold walkSlotR
  simp only [hhuge, hp, Bool.or_true, if_true, if_pos]
  cases h1 : S.handlePte mem st.strat (PteType.page idx) (p.2.1, p.2.2) (mem phys p.1) with
  | error e => rfl
  | ok s1 => simp [Except.bind]

/-- C7 witness: the huge present PTE `0x201` at level 1 of `tf` makes the
reader slot produce exactly one Page `handle_pte` event and stop. -/
theorem c7_witness :
    walkSlotR tf readerS tfHugeMem (fun _ _ st => Except.ok st) 1 0x100 (0, 0, 1)
      ⟨none, []⟩ =
    Except.ok ⟨some 0x201, [Event.pte (PteType.page 1) (0, 1) 0x201]⟩ := by
  rw [c7_huge_terminates_amended tf readerS tfHugeMem (fun _ _ st => Except.ok st)
    1 0x100 (0, 0, 1) ⟨none, []⟩ (by decide) (by decide) (by decide) (by decide)]
  decide

/-- C8 counterexample: with an all-zero hierarchy (the root PTE for address 0
is a non-present intermediate hole), `read_pte` does NOT return the
`PTE_NOT_FOUND` error: the walk descends through the hole to level 0 and
captures the PTE found there, so `read_pte` returns `Ok 0`. -/
theorem c8_counterexample :
    read_pte tf zeroMem 0x100 0 = Except.ok 0
    ∧ (tf.getLevel 1).is_present (zeroMem 0x100 0) = false
    ∧ (Except.ok 0 : Except Nat Nat) ≠ Except.error PTE_NOT_FOUND := by
  decide

/-- C8 (amended): `read_pte(va)` walks `[va, va + 1)` and returns `Ok` with
the capture left by folding the reader over the walk's `handle_pte` events
(the last Page-classified PTE seen), and `PTE_NOT_FOUND` exactly when that
fold captured nothing; an intermediate hole above the leaf level does not by
itself produce `PTE_NOT_FOUND`, because the walk descends through the
non-present PTE into `pte & physical_mask` and captures the PTE at the leaf
level of that chain (second conjunct, over the two-level format `tf`, for
every memory and root with a non-huge root PTE). -/
theorem c8_read_pte_amended :
    (∀ (f : PageFormat) (mem : Mem) (root va : Nat) (st' : RState (Option Nat)),
      walkR f readerS mem root (va, va + 1) ⟨none, []⟩ = Except.ok st' →
      read_pte f mem root va =
        (match readerFold none st'.events with
         | some p => Except.ok p
         | none => Except.error PTE_NOT_FOUND))
    ∧ (∀ (mem : Mem) (root : Nat),
        (tf.getLevel 1).is_huge_page (mem root 0) = false →
        read_pte tf mem root 0 = Except.ok (mem ((mem root 0) &&& tf.physical_mask) 0)) := by
  constructor
  · intro f mem root va st' h
    unfold read_pte
    rw [h]
    unfold walkR at h
    obtain ⟨new, he, hs⟩ := reader_doWalk f mem _ root _ _ _ _ h
    simp only [List.nil_append] at he
    dsimp only
    rw [hs, he]
  · exact read_pte_hole_lemma

/-- C8 witness: on the all-zero hierarchy, `read_pte` of 0 agrees with the
fold over the walk's events, and the hole-descent conjunct yields `Ok 0`. -/
theorem c8_witness :
    read_pte tf zeroMem 0x100 0 =
      (match readerFold none
        [Event.pte (PteType.pageTable 1) (0, 1) 0, Event.hole 1 (0, 1) 0,
         Event.pte (PteType.page 0) (0, 1) 0, Event.hole 0 (0, 1) 0,
         Event.post 1 (0, 1) 0] with
       | some p => Except.ok p
       | none => Except.error PTE_NOT_FOUND)
    ∧ read_pte tf zeroMem 0x300 0 =
      Except.ok (zeroMem ((zeroMem 0x300 0) &&& tf.physical_mask) 0) :=
  ⟨c8_read_pte_amended.1 tf zeroMem 0x100 0
      ⟨some 0,
        [Event.pte (PteType.pageTable 1) (0, 1) 0, Event.hole 1 (0, 1) 0,
         Event.pte (PteType.page 0) (0, 1) 0, Event.hole 0 (0, 1) 0,
         Event.post 1 (0, 1) 0]⟩ (by decide),
   c8_read_pte_amended.2 zeroMem 0x300 (by decide)⟩

/-- C9: the AArch64 preset `PAGE_FORMAT_4K_L4` is built from
`&PAGE_LEVELS_4K[0..3]` — only THREE levels, with shifts 12/21/30 and no
shift-39 level — identical to `PAGE_FORMAT_4K_L3`, although the preset's own
documentation says four levels; `PAGE_LEVELS_4K` itself does contain the four
levels 12/21/30/39 with 9 va bits each. -/
theorem c9_l4_preset_three_levels :
    aarch64.PAGE_FORMAT_4K_L4.levels = aarch64.PAGE_LEVELS_4K.take 3
    ∧ aarch64.PAGE_FORMAT_4K_L4.levels.length = 3
    ∧ aarch64.PAGE_FORMAT_4K_L4.levels.map PageLevel.shift_bits = [12, 21, 30]
    ∧ aarch64.PAGE_LEVELS_4K.map PageLevel.shift_bits = [12, 21, 30, 39]
    ∧ aarch64.PAGE_LEVELS_4K.map PageLevel.va_bits = [9, 9, 9, 9]
    ∧ aarch64.PAGE_FORMAT_4K_L3.levels = aarch64.PAGE_LEVELS_4K.take 3
    ∧ aarch64.PAGE_FORMAT_4K_L4 = aarch64.PAGE_FORMAT_4K_L3 := by
  decide

/-- C10: (1) in `walk_mut`, a slot whose PTE is classified PageTable (level
above 0, not huge) and whose value after `handle_pte` and `handle_pte_hole`
is still not huge, recurses into `pte & physical_mask` computed from THAT
post-callback value `s2.2` — the equation below exhibits the descent target
— and only then issues `handle_post_pte`; note no present-condition appears
among the hypotheses, so the walk descends through non-present intermediate
PTEs rather than skipping them. (2) Consequently, an Allocator walk over an
empty hierarchy installs a child table (PTE `0x201` at the root) and, within
the same walk, descends into that freshly installed table at `0x200` and
fills its leaf slot (`0x30D`). -/
theorem c10_descends_into_updated_pte :
    (∀ {σ ε : Type} (f : PageFormat) (S : WalkerM σ ε)
      (recurse : Nat → Nat × Nat → MState σ → Except ε (MState σ))
      (idx phys : Nat) (p : Nat × Nat × Nat) (st : MState σ) (s1 s2 : σ × Nat),
      (idx == 0 || (f.getLevel idx).is_huge_page (st.mem phys p.1)) = false →
      S.handlePte st.mem st.strat (PteType.pageTable idx) (p.2.1, p.2.2) (st.mem phys p.1)
        = Except.ok s1 →
      holeStepM f S (updateMem st.mem phys p.1 s1.2) idx (p.2.1, p.2.2) s1 = Except.ok s2 →
      (idx == 0 || (f.getLevel idx).is_huge_page s2.2) = false →
      walkSlotM f S recurse idx phys p st =
        (recurse (s2.2 &&& f.physical_mask) (p.2.1, p.2.2)
          ⟨updateMem st.mem phys p.1 s2.2, s2.1,
            st.events ++ [Event.pte (PteType.pageTable idx) (p.2.1, p.2.2) (st.mem phys p.1)] ++
              (if (f.getLevel idx).is_present s1.2 then []
               else [Event.hole idx (p.2.1, p.2.2) s1.2])⟩).bind fun st3 =>
          (S.handlePostPte st3.mem st3.strat idx (p.2.1, p.2.2) (st3.mem phys p.1)).map
            fun s4 => ⟨updateMem st3.mem phys p.1 s4.2, s4.1,
              st3.events ++ [Event.post idx (p.2.1, p.2.2) (st3.mem phys p.1)]⟩)
    ∧ memAt (walkM miniFmt (allocS miniFmt) 0x100 (0, 16)
        ⟨zeroMem, ⟨some 0xC, [0x200, 0x300]⟩, []⟩) 0x200 0 = some 0x30D
    ∧ memAt (walkM miniFmt (allocS miniFmt) 0x100 (0, 16)
        ⟨zeroMem, ⟨some 0xC, [0x200, 0x300]⟩, []⟩) 0x100 0 = some 0x201
    ∧ (miniFmt.getLevel 1).is_present (zeroMem 0x100 0) = false := by
  refine ⟨?_, by decide, by decide, by decide⟩
  intro σ ε f S recurse idx phys p st s1 s2 hclass h1 h2 h3
  unfold walkSlotM
  simp only [hclass, if_false, Bool.false_eq_true, h1, h2, h3, Except.bind]

/-- C10 witness: the general slot equation applied to the Allocator filling a
root hole over `miniFmt`: the slot's result, observed at the root PTE, is the
freshly installed table PTE `0x201` (the dummy continuation keeps the walk
from going further, isolating the slot). -/
theorem c10_witness :
    memAt (walkSlotM miniFmt (allocS miniFmt) (fun _ _ st => Except.ok st) 1 0x100
      (0, 0, 16) ⟨zeroMem, ⟨some 0xC, [0x200, 0x300]⟩, []⟩) 0x100 0 = some 0x201 := by
  rw [c10_descends_into_updated_pte.1 miniFmt (allocS miniFmt)
    (fun _ _ st => Except.ok st) 1 0x100 (0, 0, 16)
    ⟨zeroMem, ⟨some 0xC, [0x200, 0x300]⟩, []⟩
    (⟨some 0xC, [0x200, 0x300]⟩, 0) (⟨some 0xC, [0x300]⟩, 0x201)
    (by decide) (by decide) (by decide) (by decide)]
  rfl

end PW
